import Mathlib

/-
Verification of the bsplinelab B-spline library against its specification.

Shallow embedding of the two source modules:
  * `spline.py` — the `Knots` class (knot indexing, Greville abscissae), the
    Euclidean `geodesic`, the `BSpline` generalized de Casteljau evaluator and
    its `Bezier` specialization;
  * `bspline/symmetric.py` — the C2 `Interpolator` fixed-point solver.

Python floats are modelled by exact rationals `ℚ`; the machine epsilon used by
the repeated-knot workaround is `2⁻⁵²` (the float64 epsilon).  Points and
tangent vectors live in an arbitrary `ℚ`-module, matching numpy's elementwise
arithmetic.  Python exceptions are modelled by `Except` values.
-/

/-- Python slice semantics `l[a:b]` for integer bounds (no step): negative
indices count from the end, and out-of-range bounds are clamped. -/
def pySlice {α : Type} (l : List α) (a b : ℤ) : List α :=
  let L : ℤ := l.length
  let a2 : ℤ := if a < 0 then max 0 (L + a) else min a L
  let b2 : ℤ := if b < 0 then max 0 (L + b) else min b L
  (l.take b2.toNat).drop a2.toNat

/-- Pointwise ternary zip, used for the vectorised `geodesic(pts[:-1], pts[1:], rcoeff)`
step; like numpy's elementwise broadcast it consumes the three lists in lockstep. -/
def zipWith3 {α β γ δ : Type} (f : α → β → γ → δ) : List α → List β → List γ → List δ
  | a :: as, b :: bs, c :: cs => f a b c :: zipWith3 f as bs cs
  | _, _, _ => []

/-- Knots.ktol, the knot-location tolerance `1e-13` from `spline.py`. -/
def ktol : ℚ := 1e-13

/-- Machine epsilon of float64, `np.finfo(dtype).eps = 2 ** (-52)`. -/
def machineEps : ℚ := 1 / 2 ^ 52

/-- The repeated-knot guard from `BSpline.__call__`:
`diffs[diffs==0.] = np.finfo(kns.dtype).eps` replaces a zero knot difference
by machine epsilon before the local knot ratio divides by it. -/
def fixZero (d : ℚ) : ℚ := if d = 0 then machineEps else d

/-- The exceptions raised by `spline.py` (all `ValueError`s in the source,
distinguished here by their messages). -/
inductive SplineErr : Type
  | timeTooSmall   -- ValueError("Time too small")
  | timeTooBig     -- ValueError("Time too big")
  | wrongKnotIndex -- ValueError("Wrong knot index.")
  | indexError     -- IndexError from `pts[:,0]` on an empty window
  deriving DecidableEq, Repr

/-- Knots.left_knot from `spline.py`: find between which knots a time `t` is.
`klength` is the attribute `self.length = degree - 1`; the active window is
`self.knots[self.length:-self.length]`, `isrightof = (window - t) > ktol`,
and `np.argmax` of a boolean array is the index of its first `true`
(`List.findIdx`). -/
def leftKnot (knots : List ℚ) (degree : ℤ) (t : ℚ) : Except SplineErr ℤ :=
  let klength : ℤ := degree - 1
  let w : List ℚ := pySlice knots klength (-klength)
  if w.all (fun x => decide (ktol < x - t)) then .error .timeTooSmall
  else if w.all (fun x => !(decide (ktol < x - t))) then .error .timeTooBig
  else .ok ((w.findIdx (fun x => decide (ktol < x - t)) : ℤ) - 1 + klength)

/-- Knots.abscissae from `spline.py`: `np.convolve(np.ones(degree)/degree, knots, 'valid')`,
i.e. the moving average of `degree` consecutive knots (faithful for
`1 ≤ degree ≤ len(knots)`, the range where numpy's 'valid' mode is defined). -/
def abscissae (knots : List ℚ) (degree : ℕ) : List ℚ :=
  (List.range (knots.length + 1 - degree)).map fun j =>
    ((knots.drop j).take degree).sum / degree

/-- The function `geodesic(P1, P2, theta)` from `spline.py`: affine interpolation
in the ambient `ℚ`-module. -/
def geodesic {V : Type} [AddCommGroup V] [Module ℚ V] (P1 P2 : V) (theta : ℚ) : V :=
  (1 - theta) • P1 + theta • P2

/-- The de Casteljau loop of `BSpline.__call__`:
`for n in reversed(1+np.arange(degree))`, with
`diffs = kns[n:] - kns[:-n]` (zero entries replaced by machine epsilon),
`rcoeff = (t - kns[:-n]) / diffs`,
`pts = geodesic(pts[:-1], pts[1:], rcoeff)` and `kns = kns[1:-1]`.
The first argument is the remaining round counter `n`. -/
def deCasteljauLoop {V : Type} [AddCommGroup V] [Module ℚ V] (t : ℚ) :
    ℕ → List ℚ → List V → List V
  | 0, _, pts => pts
  | n + 1, kns, pts =>
    let rcoeff := List.zipWith (fun a b => (t - a) / fixZero (b - a)) kns (kns.drop (n + 1))
    let pts2 := zipWith3 (fun p q r => geodesic p q r) pts (pts.drop 1) rcoeff
    deCasteljauLoop t n ((kns.drop 1).dropLast) pts2

/-- BSpline.__call__ from `spline.py`, evaluated at a single scalar time `t`.
The attributes are those set by `BSpline.__init__`:
`degree = len(knots) - len(control_points) + 1` and `length = degree - 1`.
When `lknotArg` is `none` the active interval is located with `left_knot`;
then `pts = control_points[lknot-length : lknot+2]`,
`kns = knots[lknot-degree+1 : lknot+degree+1]`, the window size is checked
(`ValueError("Wrong knot index.")` otherwise), the de Casteljau rounds run,
and the single remaining point `pts[:,0]` is returned. -/
def bsplineCall {V : Type} [AddCommGroup V] [Module ℚ V]
    (knots : List ℚ) (cps : List V) (t : ℚ) (lknotArg : Option ℤ) : Except SplineErr V :=
  let degree : ℤ := (knots.length : ℤ) - cps.length + 1
  let klength : ℤ := degree - 1
  let lkn : Except SplineErr ℤ :=
    match lknotArg with
    | some l => .ok l
    | none => leftKnot knots degree t
  match lkn with
  | .error e => .error e
  | .ok lknot =>
    let pts := pySlice cps (lknot - klength) (lknot + 2)
    let kns := pySlice knots (lknot - degree + 1) (lknot + degree + 1)
    if (pts.length : ℤ) ≠ klength + 2 then .error .wrongKnotIndex
    else
      match (deCasteljauLoop t degree.toNat kns pts).head? with
      | some p => .ok p
      | none => .error .indexError

/-- The state built by `BSpline.__init__`: the knot array, the derived degree
`len(knots) - len(control_points) + 1` (stored via `Knots.__init__` as
`length = degree - 1`), and the control points. -/
structure BSplineData (V : Type) where
  knots : List ℚ
  degree : ℤ
  control_points : List V
  deriving Repr

/-- BSpline.__init__ from `spline.py`: it computes
`degree = len(knots) - len(control_points) + 1`, stores the attributes, and
performs no validation whatsoever, so no exception can be raised. -/
def bsplineInit {V : Type} (knots : List ℚ) (cps : List V) : Except SplineErr (BSplineData V) :=
  .ok { knots := knots
        degree := (knots.length : ℤ) - cps.length + 1
        control_points := cps }

/-- The knot list built by `Bezier.__init__` for `rknot = len(control_points) - 1`:
`knots = np.zeros(2*rknot); knots[rknot:] = 1`. -/
def bezierKnots (rknot : ℕ) : List ℚ :=
  List.replicate rknot 0 ++ List.replicate rknot 1

/-- Bezier.__call__ from `spline.py`: it always delegates to `BSpline.__call__`
with the fixed interior knot index `lknot = self.rknot - 1` and never consults
`left_knot` (`left_knot` does not occur in its body).  Faithful for at least
one control point; `Bezier.__init__` itself crashes on an empty list. -/
def bezierCall {V : Type} [AddCommGroup V] [Module ℚ V]
    (cps : List V) (t : ℚ) : Except SplineErr V :=
  bsplineCall (bezierKnots (cps.length - 1)) cps t (some ((cps.length : ℤ) - 2))

/-! ### Helper lemmas for evaluating the embedded functions on concrete inputs -/

theorem findIdx_cons_of_true {α : Type} {p : α → Bool} {a : α} {l : List α}
    (h : p a = true) : (a :: l).findIdx p = 0 := by
  simp [List.findIdx_cons, h]

theorem findIdx_cons_of_false {α : Type} {p : α → Bool} {a : α} {l : List α}
    (h : p a = false) : (a :: l).findIdx p = l.findIdx p + 1 := by
  simp [List.findIdx_cons, h]

/-! ### C9: left_knot tolerance at a knot -/

/-- C9: for the knot vector `[1,2,3,4,5,6,7]` with degree 3,
`left_knot(4.0 - 1e-14)` returns the same index as `left_knot(4.0)` (namely 3):
a parameter within the `ktol = 1e-13` tolerance of a knot resolves to the same
interval as the knot value itself, not to the adjacent interval. -/
theorem C9_left_knot_tolerance :
    leftKnot [1,2,3,4,5,6,7] 3 (4 - 1e-14) = .ok 3 ∧
    leftKnot [1,2,3,4,5,6,7] 3 4 = .ok 3 := by
  constructor
  · simp only [leftKnot, pySlice]
    norm_num [ktol]
    rw [show Int.toNat (2:ℤ) = 2 from rfl, show Int.toNat (5:ℤ) = 5 from rfl]
    norm_num [ktol]
    rw [findIdx_cons_of_false (by norm_num [ktol]), findIdx_cons_of_false (by norm_num [ktol]),
        findIdx_cons_of_true (by norm_num [ktol])]
    norm_num
  · simp only [leftKnot, pySlice]
    norm_num [ktol]
    rw [show Int.toNat (2:ℤ) = 2 from rfl, show Int.toNat (5:ℤ) = 5 from rfl]
    norm_num [ktol]
    rw [findIdx_cons_of_false (by norm_num [ktol]), findIdx_cons_of_false (by norm_num [ktol]),
        findIdx_cons_of_true (by norm_num [ktol])]
    norm_num

/-! ### C8: Greville abscissae -/

/-- C8: `abscissae()` returns the Greville abscissae, the moving averages of
`degree` consecutive knots, one per control point (`len(knots) - degree + 1`
values); in particular for knots `[0,0,0,2,3,4,5,5,5]` with degree 3 it
returns exactly `[0, 2/3, 5/3, 3, 4, 14/3, 5]`. -/
theorem C8_greville_abscissae :
    abscissae [0,0,0,2,3,4,5,5,5] 3 = [0, 2/3, 5/3, 3, 4, 14/3, 5] ∧
    ∀ (knots : List ℚ) (degree : ℕ), degree ≤ knots.length →
      ((abscissae knots degree).length : ℤ) = (knots.length : ℤ) - degree + 1 := by
  constructor
  · norm_num [abscissae, List.range_succ]
  · intro knots degree h
    simp only [abscissae, List.length_map, List.length_range]
    omega

/-- C8 witness: the length formula instantiated at the concrete example. -/
theorem C8_greville_abscissae_witness :
    ((abscissae [0,0,0,2,3,4,5,5,5] 3).length : ℤ) = (9 : ℤ) - 3 + 1 := by
  have h := C8_greville_abscissae.2 [0,0,0,2,3,4,5,5,5] 3 (by norm_num)
  simpa using h

/-! ### C2: left_knot domain errors -/

theorem pySlice_window (l : List ℚ) (k : ℕ) (hk : 1 ≤ k) :
    pySlice l (k : ℤ) (-(k : ℤ)) = (l.take (l.length - k)).drop k := by
  unfold pySlice
  have h1 : ¬ ((k : ℤ) < 0) := by omega
  have h2 : (-(k : ℤ) < 0) := by omega
  simp only [h1, h2, if_false, if_true, if_neg, if_pos]
  rcases le_or_lt k l.length with h | h
  · have e1 : (min (k : ℤ) (l.length : ℤ)).toNat = k := by omega
    have e2 : (max 0 ((l.length : ℤ) + -(k:ℤ))).toNat = l.length - k := by omega
    rw [e1, e2]
  · have e1 : (min (k : ℤ) (l.length : ℤ)).toNat = l.length := by omega
    have e2 : (max 0 ((l.length : ℤ) + -(k:ℤ))).toNat = 0 := by omega
    rw [e1, e2]
    have e3 : l.length - k = 0 := by omega
    rw [e3]
    simp

theorem sorted_head_min {l : List ℚ} (hs : List.Sorted (· ≤ ·) l) {a x : ℚ}
    (ha : l.head? = some a) (hx : x ∈ l) : a ≤ x := by
  cases l with
  | nil => cases hx
  | cons y t =>
    simp only [List.head?_cons, Option.some.injEq] at ha
    subst ha
    rcases List.mem_cons.mp hx with rfl | hmem
    · exact le_refl _
    · exact (List.pairwise_cons.mp hs).1 x hmem

theorem sorted_getLast_max {l : List ℚ} (hs : List.Sorted (· ≤ ·) l) {b x : ℚ}
    (hb : l.getLast? = some b) (hx : x ∈ l) : x ≤ b := by
  induction l with
  | nil => cases hx
  | cons y t ih =>
    cases t with
    | nil =>
      simp only [List.getLast?_singleton, Option.some.injEq] at hb
      subst hb
      rcases List.mem_singleton.mp hx with rfl
      exact le_refl _
    | cons z t2 =>
      have hb2 : (z :: t2).getLast? = some b := by
        rw [List.getLast?_cons_cons] at hb
        exact hb
      have hs2 : List.Sorted (· ≤ ·) (z :: t2) := (List.pairwise_cons.mp hs).2
      rcases List.mem_cons.mp hx with rfl | hmem
      · have hbmem : b ∈ z :: t2 := List.mem_of_mem_getLast? hb2
        exact (List.pairwise_cons.mp hs).1 b hbmem
      · exact ih hs2 hb2 hmem

/-- C2 counterexample: the claim asserts that `left_knot(t)` raises a domain
error whenever `t` is AT the first usable knot `knots[degree-1]`.  For the
knot vector `[1,2,3,4,5,6,7]` with degree 3 the first usable knot is
`knots[2] = 3`, yet `left_knot(3.0)` returns the index 2 without raising. -/
theorem C2_counterexample_at_first_usable_knot :
    leftKnot [1,2,3,4,5,6,7] 3 3 = .ok 2 ∧
    ([1,2,3,4,5,6,7] : List ℚ).getD (3 - 1) 0 = 3 := by
  constructor
  · simp only [leftKnot, pySlice]
    norm_num [ktol]
    rw [show Int.toNat (2:ℤ) = 2 from rfl, show Int.toNat (5:ℤ) = 5 from rfl]
    norm_num [ktol]
    rw [findIdx_cons_of_false (by norm_num [ktol]), findIdx_cons_of_true (by norm_num [ktol])]
    norm_num
  · rfl

/-- C2 (amended): for a non-decreasing knot vector with degree ≥ 2 and at
least `2*degree` knots, `left_knot(t)` raises `Time too small` when
`t < knots[degree-1] - ktol`, raises `Time too big` when
`t ≥ knots[len-degree] - ktol`, and for all `t` in between — including `t`
exactly at the first usable knot — returns an index without raising.  For
degree 1 the active window `knots[0:-0] = knots[0:0]` is empty and
`left_knot` raises `Time too small` for every `t`. -/
theorem C2_amended_left_knot_domain (knots : List ℚ) (degree : ℤ) (t : ℚ)
    (hs : List.Sorted (· ≤ ·) knots) (hd : 2 ≤ degree)
    (hL : 2 * degree ≤ (knots.length : ℤ)) :
    (t < knots.getD (degree - 1).toNat 0 - ktol →
        leftKnot knots degree t = .error .timeTooSmall) ∧
    (knots.getD ((knots.length : ℤ) - degree).toNat 0 - ktol ≤ t →
        leftKnot knots degree t = .error .timeTooBig) ∧
    (knots.getD (degree - 1).toNat 0 - ktol ≤ t →
        t < knots.getD ((knots.length : ℤ) - degree).toNat 0 - ktol →
        ∃ i : ℤ, leftKnot knots degree t = .ok i) ∧
    (leftKnot knots 1 t = .error .timeTooSmall) := by
  obtain ⟨k, hk1, hkdeg⟩ : ∃ k : ℕ, 1 ≤ k ∧ degree = (k : ℤ) + 1 :=
    ⟨(degree - 1).toNat, by omega, by omega⟩
  have hL2 : 2 * k + 2 ≤ knots.length := by omega
  have hdeq : degree - 1 = (k : ℤ) := by omega
  have hw : pySlice knots (degree - 1) (-(degree - 1)) =
      (knots.take (knots.length - k)).drop k := by
    rw [hdeq]; exact pySlice_window knots k hk1
  set w : List ℚ := (knots.take (knots.length - k)).drop k with hwdef
  have hwlen : w.length = knots.length - 2 * k := by
    rw [hwdef, List.length_drop, List.length_take]
    omega
  have hwsorted : List.Sorted (· ≤ ·) w :=
    List.Pairwise.sublist ((List.drop_sublist _ _).trans (List.take_sublist _ _)) hs
  have hidxa : k < knots.length := by omega
  have hidxb : knots.length - k - 1 < knots.length := by omega
  have ea : (degree - 1).toNat = k := by omega
  have eb : ((knots.length : ℤ) - degree).toNat = knots.length - k - 1 := by omega
  set a : ℚ := knots.getD (degree - 1).toNat 0 with hadef
  set b : ℚ := knots.getD ((knots.length : ℤ) - degree).toNat 0 with hbdef
  have hsa : some a = knots[k]? := by
    rw [hadef, ea]
    simp [List.getD_eq_getElem?_getD, List.getElem?_eq_getElem hidxa]
  have hsb : some b = knots[knots.length - k - 1]? := by
    rw [hbdef, eb]
    simp [List.getD_eq_getElem?_getD, List.getElem?_eq_getElem hidxb]
  have hha : w.head? = some a := by
    rw [List.head?_eq_getElem?, hwdef, List.getElem?_drop,
        show k + 0 = k from rfl,
        List.getElem?_take_of_lt (show k < knots.length - k by omega)]
    exact hsa.symm
  have hhb : w.getLast? = some b := by
    rw [List.getLast?_eq_getElem?, hwlen, hwdef, List.getElem?_drop,
        List.getElem?_take_of_lt (show k + (knots.length - 2*k - 1) < knots.length - k by omega),
        show k + (knots.length - 2*k - 1) = knots.length - k - 1 by omega]
    exact hsb.symm
  have hamem : a ∈ w := List.mem_of_mem_head? (by rw [hha]; exact rfl)
  have hbmem : b ∈ w := List.mem_of_mem_getLast? hhb
  have hab : a ≤ b := sorted_head_min hwsorted hha hbmem
  have hlk : leftKnot knots degree t =
      (if w.all (fun x => decide (ktol < x - t)) then .error .timeTooSmall
       else if w.all (fun x => !(decide (ktol < x - t))) then .error .timeTooBig
       else .ok ((w.findIdx (fun x => decide (ktol < x - t)) : ℤ) - 1 + (degree - 1))) := by
    rw [leftKnot, hw]
  refine ⟨?_, ?_, ?_, ?_⟩
  · intro hts
    have hcond : w.all (fun x => decide (ktol < x - t)) = true := by
      rw [List.all_eq_true]
      intro x hx
      have := sorted_head_min hwsorted hha hx
      simp only [decide_eq_true_eq]
      linarith
    rw [hlk, if_pos hcond]
  · intro htb
    have hcond : ¬ (w.all (fun x => decide (ktol < x - t)) = true) := by
      rw [List.all_eq_true]
      intro hall
      have := hall a hamem
      simp only [decide_eq_true_eq] at this
      linarith
    have hcond2 : w.all (fun x => !(decide (ktol < x - t))) = true := by
      rw [List.all_eq_true]
      intro x hx
      have := sorted_getLast_max hwsorted hhb hx
      simp only [Bool.not_eq_true', decide_eq_false_iff_not]
      intro hlt
      linarith
    rw [hlk, if_neg hcond, if_pos hcond2]
  · intro h1 h2
    have hcond : ¬ (w.all (fun x => decide (ktol < x - t)) = true) := by
      rw [List.all_eq_true]
      intro hall
      have := hall a hamem
      simp only [decide_eq_true_eq] at this
      linarith
    have hcond2 : ¬ (w.all (fun x => !(decide (ktol < x - t))) = true) := by
      rw [List.all_eq_true]
      intro hall
      have := hall b hbmem
      simp only [Bool.not_eq_true', decide_eq_false_iff_not] at this
      exact this (by linarith)
    rw [hlk, if_neg hcond, if_neg hcond2]
    exact ⟨_, rfl⟩
  · rw [leftKnot]
    have h0 : ((1:ℤ) - 1) = 0 := by omega
    have hempty : pySlice knots (0 : ℤ) (-(0 : ℤ)) = ([] : List ℚ) := by
      unfold pySlice
      norm_num
    rw [h0]
    rw [hempty]
    simp

/-- C2 witness: the amended characterization applied to the knot vector
`[1,2,3,4,5,6,7]` with degree 3 at `t = 4`, strictly inside the usable range:
`left_knot` returns an index without raising. -/
theorem C2_amended_left_knot_domain_witness :
    ∃ i : ℤ, leftKnot [1,2,3,4,5,6,7] 3 4 = .ok i := by
  have h := C2_amended_left_knot_domain [1,2,3,4,5,6,7] 3 4
    (by norm_num [List.sorted_cons]) (by norm_num) (by norm_num)
  refine h.2.2.1 ?_ ?_
  · rw [show (([1,2,3,4,5,6,7] : List ℚ).getD ((3:ℤ) - 1).toNat 0) = 3 from rfl]
    norm_num [ktol]
  · rw [show (([1,2,3,4,5,6,7] : List ℚ).getD
        (((([1,2,3,4,5,6,7] : List ℚ).length : ℤ)) - 3).toNat 0) = 5 from rfl]
    norm_num [ktol]

/-! ### C3: BSpline construction and the control-point count invariant -/

/-- C3 counterexample: `BSpline.__init__` receives no degree and performs no
size check, so no knot/control-point combination can fail.  Concretely, the
knot vector `[1,2,3,4,5,6,7]` (used with degree 3 throughout the test suite)
together with only 4 control points violates the claimed invariant
`len(points) = len(knots) - degree + 1` for degree 3, yet construction
succeeds (the constructor silently rebrands the data as a degree-4 spline)
instead of raising a size-mismatch error. -/
theorem C3_counterexample_no_size_check :
    (bsplineInit [(1:ℚ),2,3,4,5,6,7] [(10:ℚ),20,30,40]).isOk = true ∧
    ((([(10:ℚ),20,30,40] : List ℚ).length : ℤ) ≠
      (([(1:ℚ),2,3,4,5,6,7] : List ℚ).length : ℤ) - 3 + 1) := by
  constructor
  · rfl
  · decide

/-- C3 (amended): construction never fails.  `BSpline.__init__` derives
`degree = len(knots) - len(control_points) + 1` from its two arguments, so
every knot/control-point combination satisfies the count invariant with
respect to that derived degree by construction, and no size check exists. -/
theorem C3_amended_construction_total {V : Type} (knots : List ℚ) (cps : List V) :
    bsplineInit knots cps = .ok { knots := knots
                                  degree := (knots.length : ℤ) - cps.length + 1
                                  control_points := cps } ∧
    (cps.length : ℤ) = (knots.length : ℤ) - ((knots.length : ℤ) - (cps.length : ℤ) + 1) + 1 :=
  ⟨rfl, by ring⟩

/-! ### C1: the Bezier specialization reproduces the parabola -/

/-- The three Euclidean control points `[[1,1],[0,-1],[-1,1]]` of the
test-suite Bezier example. -/
def parabolaPts : List (ℚ × ℚ) := [(1,1),(0,-1),(-1,1)]

/-- Closed form of the Bezier curve through `parabolaPts`: the knot list is
`[0,0,1,1]`, the degree is 2, and the two de Casteljau rounds yield the
quadratic Bezier point `((1-t)^2 - t^2, (1-t)^2 - 2t(1-t) + t^2)`. -/
theorem bezier_parabola_eval (t : ℚ) :
    bezierCall parabolaPts t = .ok (1 - 2*t, (1 - 2*t)^2) := by
  simp only [bezierCall, bsplineCall, bezierKnots, parabolaPts, pySlice]
  norm_num
  rw [show Int.toNat (2:ℤ) = 2 from rfl, show Int.toNat (4:ℤ) = 4 from rfl,
      show Int.toNat (3:ℤ) = 3 from rfl]
  norm_num [List.replicate]
  simp only [deCasteljauLoop, zipWith3, List.zipWith, List.drop, List.dropLast,
             List.dropLast_cons_of_ne_nil, fixZero]
  norm_num [geodesic, Prod.smul_mk, Prod.mk_add_mk]
  rw [show (1 : ℚ × ℚ) = ((1:ℚ), (1:ℚ)) from rfl]
  simp only [Prod.smul_mk, Prod.mk_add_mk, Prod.mk.injEq, smul_eq_mul]
  constructor <;> ring

/-- C1: for the Bezier specialization built from the three Euclidean control
points `[[1,1],[0,-1],[-1,1]]`, for every parameter `t ∈ [0,1]` the evaluated
point `(x(t), y(t))` satisfies `y(t) = x(t)^2`, and evaluation at `t = 0.5`
returns the point `(0, 0)`. -/
theorem C1_bezier_parabola (t : ℚ) (h0 : 0 ≤ t) (h1 : t ≤ 1) :
    (∃ p : ℚ × ℚ, bezierCall parabolaPts t = .ok p ∧ p.2 = p.1 ^ 2) ∧
    bezierCall parabolaPts (1/2) = .ok (0, 0) := by
  constructor
  · exact ⟨(1 - 2*t, (1 - 2*t)^2), bezier_parabola_eval t, by ring⟩
  · have h := bezier_parabola_eval (1/2)
    norm_num at h
    exact h

/-- C1 witness: the theorem applied at the concrete parameter `t = 1/2`. -/
theorem C1_bezier_parabola_witness :
    (∃ p : ℚ × ℚ, bezierCall parabolaPts (1/2) = .ok p ∧ p.2 = p.1 ^ 2) ∧
    bezierCall parabolaPts (1/2) = .ok (0, 0) :=
  C1_bezier_parabola (1/2) (by norm_num) (by norm_num)

/-! ### C10: Bezier evaluation never consults left_knot and never raises -/

theorem zipWith3_length {α β γ δ : Type} (f : α → β → γ → δ) :
    ∀ (as : List α) (bs : List β) (cs : List γ),
      (zipWith3 f as bs cs).length = min as.length (min bs.length cs.length)
  | [], bs, cs => by simp [zipWith3]
  | a :: as, [], cs => by simp [zipWith3]
  | a :: as, b :: bs, [] => by simp [zipWith3]
  | a :: as, b :: bs, c :: cs => by
    simp only [zipWith3, List.length_cons, zipWith3_length f as bs cs]
    omega

/-- Each de Casteljau round shrinks the point window by one and the knot
window by two, so a window of `2*m` knots and `m+1` points ends after `m`
rounds in a single point. -/
theorem deCasteljauLoop_length {V : Type} [AddCommGroup V] [Module ℚ V] (t : ℚ) :
    ∀ (m : ℕ) (kns : List ℚ) (pts : List V),
      kns.length = 2 * m → pts.length = m + 1 →
      (deCasteljauLoop t m kns pts).length = 1
  | 0, kns, pts, _, hpts => by
    simpa [deCasteljauLoop] using hpts
  | m + 1, kns, pts, hkns, hpts => by
    rw [deCasteljauLoop]
    apply deCasteljauLoop_length t m
    · simp only [List.length_dropLast, List.length_drop]
      omega
    · rw [zipWith3_length]
      simp only [List.length_drop, List.length_zipWith]
      omega

theorem pySlice_full {α : Type} (l : List α) : pySlice l 0 (l.length : ℤ) = l := by
  unfold pySlice
  have h1 : ¬ ((0:ℤ) < 0) := by omega
  have h2 : ¬ ((l.length : ℤ) < 0) := by omega
  simp only [h1, h2, if_false]
  have e1 : (min (0:ℤ) (l.length:ℤ)).toNat = 0 := by omega
  have e2 : (min (l.length:ℤ) (l.length:ℤ)).toNat = l.length := by omega
  rw [e1, e2]
  simp

/-- C10: for every Bezier object with at least one control point, evaluation
at any parameter `t` never consults `left_knot` (`Bezier.__call__` passes the
fixed interior index `rknot - 1`, see `bezierCall`) and never raises — even
for `t` outside `[0,1]` it returns a point, extrapolating the polynomial
instead of failing with the out-of-range domain error. -/
theorem C10_bezier_never_raises {V : Type} [AddCommGroup V] [Module ℚ V]
    (cps : List V) (t : ℚ) (hc : 1 ≤ cps.length) :
    ∃ p : V, bezierCall cps t = .ok p := by
  simp only [bezierCall, bsplineCall]
  have hklen : (bezierKnots (cps.length - 1)).length = 2 * (cps.length - 1) := by
    simp [bezierKnots]
    omega
  have hdeg : ((bezierKnots (cps.length - 1)).length : ℤ) - (cps.length : ℤ) + 1
      = (cps.length : ℤ) - 1 := by
    rw [hklen]
    omega
  rw [hdeg]
  have e1 : (cps.length : ℤ) - 2 - ((cps.length : ℤ) - 1 - 1) = 0 := by ring
  have e2 : (cps.length : ℤ) - 2 + 2 = (cps.length : ℤ) := by ring
  have e3 : (cps.length : ℤ) - 2 - ((cps.length : ℤ) - 1) + 1 = 0 := by ring
  have e4 : (cps.length : ℤ) - 2 + ((cps.length : ℤ) - 1) + 1
      = ((bezierKnots (cps.length - 1)).length : ℤ) := by
    rw [hklen]
    omega
  rw [e1, e2, e3, e4, pySlice_full, pySlice_full]
  have hcond : ¬ ((cps.length : ℤ) ≠ (cps.length : ℤ) - 1 - 1 + 2) := by omega
  rw [if_neg hcond]
  have hlen1 : (deCasteljauLoop t ((cps.length : ℤ) - 1).toNat
      (bezierKnots (cps.length - 1)) cps).length = 1 := by
    apply deCasteljauLoop_length
    · rw [hklen]; omega
    · omega
  obtain ⟨p, hp⟩ := List.length_eq_one.mp hlen1
  rw [hp]
  exact ⟨p, rfl⟩

/-- C10 witness: a three-point Bezier evaluated far outside `[0,1]` still
returns a point. -/
theorem C10_bezier_never_raises_witness :
    ∃ p : ℚ, bezierCall [(2:ℚ),5,9] 3 = .ok p :=
  C10_bezier_never_raises [(2:ℚ),5,9] 3 (by norm_num)

/-! ### C5: the machine-epsilon guard and totality on the representable range -/

theorem pySlice_zero {α : Type} (l : List α) : pySlice l 0 0 = [] := by
  unfold pySlice
  norm_num

theorem pySlice_nonneg {α : Type} (l : List α) (a b : ℤ) (ha : 0 ≤ a) (hb : 0 ≤ b) :
    pySlice l a b = (l.take b.toNat).drop a.toNat := by
  unfold pySlice
  have h1 : ¬ (a < 0) := by omega
  have h2 : ¬ (b < 0) := by omega
  simp only [h1, h2, if_false]
  rcases le_or_lt b (l.length : ℤ) with hbl | hbl
  · have e1 : (min b (l.length : ℤ)).toNat = b.toNat := by omega
    rw [e1]
    rcases le_or_lt a (l.length : ℤ) with hal | hal
    · have e2 : (min a (l.length : ℤ)).toNat = a.toNat := by omega
      rw [e2]
    · have e2 : (min a (l.length : ℤ)).toNat = l.length := by omega
      rw [e2]
      rw [List.drop_eq_nil_of_le, List.drop_eq_nil_of_le]
      · simp; omega
      · simp
  · have e1 : (min b (l.length : ℤ)).toNat = l.length := by omega
    rw [e1, List.take_length, List.take_of_length_le (by omega)]
    rcases le_or_lt a (l.length : ℤ) with hal | hal
    · have e2 : (min a (l.length : ℤ)).toNat = a.toNat := by omega
      rw [e2]
    · have e2 : (min a (l.length : ℤ)).toNat = l.length := by omega
      rw [e2]
      rw [List.drop_eq_nil_of_le, List.drop_eq_nil_of_le]
      · omega
      · simp


/-- Core of C5: whenever `left_knot` accepts the parameter `t` (so `t` is in
the representable range), the full evaluation `BSpline.__call__` succeeds and
returns a point — the window extraction check passes and the de Casteljau
rounds terminate in a single point, with every division guarded by `fixZero`.
Repeated knots are allowed: only monotonicity of the knot vector is assumed. -/
theorem bsplineCall_isOk_of_left_knot_ok {V : Type} [AddCommGroup V] [Module ℚ V]
    (knots : List ℚ) (cps : List V) (t : ℚ) (l : ℤ)
    (hs : List.Sorted (· ≤ ·) knots)
    (hdeg : cps.length ≤ knots.length)
    (hok : leftKnot knots ((knots.length : ℤ) - cps.length + 1) t = .ok l) :
    (bsplineCall knots cps t none).isOk = true := by
  have hokOrig := hok
  simp only [leftKnot] at hok
  set degree : ℤ := (knots.length : ℤ) - (cps.length : ℤ) + 1 with hdegdef
  set p : ℚ → Bool := fun x => decide (ktol < x - t) with hpdef
  set w : List ℚ := pySlice knots (degree - 1) (-(degree - 1)) with hwdef
  by_cases h1 : (w.all p) = true
  · rw [if_pos h1] at hok
    cases hok
  rw [if_neg h1] at hok
  by_cases h2 : (w.all fun x => !(decide (ktol < x - t))) = true
  · rw [if_pos h2] at hok
    cases hok
  rw [if_neg h2] at hok
  have hl : l = (w.findIdx p : ℤ) - 1 + (degree - 1) := by
    injection hok with h
    omega
  -- degree is at least 1
  have hdeg1 : 1 ≤ degree := by omega
  -- the window is nonempty, hence klength = degree - 1 is at least 1
  have hk1z : 1 ≤ degree - 1 := by
    by_contra hcon
    have h0 : degree - 1 = 0 := by omega
    apply h1
    rw [hwdef, h0]
    rw [show (-(0:ℤ)) = 0 by ring, pySlice_zero]
    simp
  obtain ⟨k, hk1n, hkz⟩ : ∃ k : ℕ, 1 ≤ k ∧ degree - 1 = (k : ℤ) :=
    ⟨(degree - 1).toNat, by omega, by omega⟩
  have hwslice : w = (knots.take (knots.length - k)).drop k := by
    rw [hwdef, hkz]
    exact pySlice_window knots k hk1n
  have hwne : w ≠ [] := by
    intro hcon
    apply h1
    rw [hcon]
    simp
  have hwlen : w.length = knots.length - 2 * k := by
    rw [hwslice, List.length_drop, List.length_take]
    omega
  have hL2k : 2 * k < knots.length := by
    have := List.length_pos.mpr hwne
    omega
  have hex : ∃ x ∈ w, p x = true := by
    by_contra hno
    push_neg at hno
    apply h2
    rw [List.all_eq_true]
    intro x hx
    have := hno x hx
    simp only [Bool.not_eq_true] at this ⊢
    rw [hpdef] at this
    simp only at this
    rw [this]
    rfl
  have hjlt : w.findIdx p < w.length := List.findIdx_lt_length_of_exists hex
  have hwsorted : List.Sorted (· ≤ ·) w := by
    rw [hwslice]
    exact List.Pairwise.sublist ((List.drop_sublist _ _).trans (List.take_sublist _ _)) hs
  have hj1 : 1 ≤ w.findIdx p := by
    by_contra hcon
    have hj0 : w.findIdx p = 0 := by omega
    have hptrue : p (w.getD 0 0) = true := by
      have hfi := @List.findIdx_getElem _ _ _ hjlt
      rw [List.getD_eq_getElem?_getD, List.getElem?_eq_getElem (by omega)]
      simpa [hj0] using hfi
    apply h1
    rw [List.all_eq_true]
    intro x hx
    have hmin : w.getD 0 0 ≤ x := by
      apply sorted_head_min hwsorted _ hx
      rw [List.head?_eq_getElem?, List.getElem?_eq_getElem (by omega : 0 < w.length)]
      rw [List.getD_eq_getElem?_getD, List.getElem?_eq_getElem (by omega : 0 < w.length)]
      simp
    rw [hpdef] at hptrue ⊢
    simp only [decide_eq_true_eq] at hptrue ⊢
    linarith
  -- now evaluate the spline call
  have hcps : (cps.length : ℤ) = (knots.length : ℤ) - k := by omega
  have hlbounds : (k : ℤ) ≤ l ∧ l ≤ (knots.length : ℤ) - k - 2 := by
    constructor
    · omega
    · have hj2 : (w.findIdx p : ℤ) ≤ (w.length : ℤ) - 1 := by omega
      rw [hwlen] at hj2
      omega
  simp only [bsplineCall]
  rw [← hdegdef, hokOrig]
  dsimp only
  rw [pySlice_nonneg cps (l - (degree - 1)) (l + 2) (by omega) (by omega)]
  rw [pySlice_nonneg knots (l - degree + 1) (l + degree + 1) (by omega) (by omega)]
  have hptslen : ((cps.take (l + 2).toNat).drop ((l - (degree - 1)).toNat)).length = k + 2 := by
    rw [List.length_drop, List.length_take]
    omega
  have hknslen : ((knots.take (l + degree + 1).toNat).drop ((l - degree + 1).toNat)).length
      = 2 * (k + 1) := by
    rw [List.length_drop, List.length_take]
    omega
  have hcond : ¬ ((((cps.take (l + 2).toNat).drop ((l - (degree - 1)).toNat)).length : ℤ)
      ≠ degree - 1 + 2) := by
    rw [hptslen]
    omega
  rw [if_neg hcond]
  have hone : (deCasteljauLoop t degree.toNat
      ((knots.take (l + degree + 1).toNat).drop ((l - degree + 1).toNat))
      ((cps.take (l + 2).toNat).drop ((l - (degree - 1)).toNat))).length = 1 := by
    apply deCasteljauLoop_length
    · rw [hknslen]; omega
    · rw [hptslen]; omega
  obtain ⟨q, hq⟩ := List.length_eq_one.mp hone
  rw [hq]
  rfl

/-- C5: every zero entry in the local knot-difference denominators (arising
from repeated knots) is replaced by the machine epsilon before the local knot
ratio is formed (`fixZero` never returns zero, and returns exactly
`machineEps` on a zero difference), so for every parameter in the
representable range — any `t` accepted by `left_knot` on a non-decreasing
knot vector — evaluation never performs a division by zero and never raises
an error due to zero-width knot intervals. -/
theorem C5_eps_guard_no_division_by_zero (d : ℚ) {V : Type}
    [AddCommGroup V] [Module ℚ V]
    (knots : List ℚ) (cps : List V) (t : ℚ) (l : ℤ)
    (hs : List.Sorted (· ≤ ·) knots)
    (hdeg : cps.length ≤ knots.length)
    (hok : leftKnot knots ((knots.length : ℤ) - cps.length + 1) t = .ok l) :
    fixZero d ≠ 0 ∧ fixZero 0 = machineEps ∧
    (bsplineCall knots cps t none).isOk = true := by
  refine ⟨?_, ?_, bsplineCall_isOk_of_left_knot_ok knots cps t l hs hdeg hok⟩
  · unfold fixZero machineEps
    split
    · norm_num
    · assumption
  · simp [fixZero]

/-- C5 witness: a degree-3 spline on the knot vector `[0,0,0,1,1,1]` with
repeated knots, evaluated at `t = 1/2`. -/
theorem C5_eps_guard_no_division_by_zero_witness :
    fixZero 5 ≠ 0 ∧ fixZero 0 = machineEps ∧
    (bsplineCall [0,0,0,1,1,1] [(0:ℚ),1,2,3] (1/2) none).isOk = true := by
  apply C5_eps_guard_no_division_by_zero 5 [0,0,0,1,1,1] [(0:ℚ),1,2,3] (1/2) 2
  · norm_num [List.sorted_cons]
  · norm_num
  · norm_num
    simp only [leftKnot, pySlice]
    norm_num [ktol]
    rw [show Int.toNat (2:ℤ) = 2 from rfl, show Int.toNat (4:ℤ) = 4 from rfl]
    norm_num [ktol]
    rw [findIdx_cons_of_false (by norm_num [ktol]), findIdx_cons_of_true (by norm_num [ktol])]
    norm_num

/-! ### Embedding of bspline/symmetric.py: the C2 Interpolator -/

/-- The geometry capability interface consumed by `symmetric.py`.  The
concrete `Geometry` classes live in `bspline/geometry.py`, which is not among
the sources; only the operations `symmetric.py` invokes are modelled, and
`expAction ξ P` stands for the composite `g.action(exponential(ξ), P)` — the
fixed-order Padé `exponential` helper composed with the group action — since
`symmetric.py` only ever uses the two together. -/
structure Geom (V P : Type) where
  expAction : V → P → P
  redlog : P → P → V
  connection : P → V → V

/-- Modelled from the spec: `geometry.zero_deformations(points)` from the
missing `bspline/geometry.py` builds the initial deformation array — "Initial
state: all interior deformations zero" — one zero tangent vector per
interpolation point.  It receives only the points, so its output cannot
depend on the boundary velocities. -/
def zeroDeformations {V P : Type} [AddCommGroup V] (pts : List P) : List V :=
  List.replicate pts.length 0

/-- Interpolator.__init__ from `symmetric.py`: `boundary_deformations =
[1/3*geometry.connection(points[j], boundary_velocities[i])
for i,j in ((0,0), (1,-1))]`. -/
def boundaryDeformations {V P : Type} [AddCommGroup V] [Module ℚ V] [Inhabited P]
    (g : Geom V P) (pts : List P) (v0 v1 : V) : V × V :=
  (((1:ℚ)/3) • g.connection (pts.headD default) v0,
   ((1:ℚ)/3) • g.connection (pts.getLastD default) v1)

/-- Interpolator.control_points from `symmetric.py`: for `l` ranging over
`range(N)[2:]` and `r` over `range(N)[:-2]` in lockstep, yield the pair
`(g.action(exponential(-deformations[l]), points[l]),
  g.action(exponential(deformations[r]), points[r]))` —
the left control point at `i+1` and the right control point at `i-1`. -/
def controlPoints {V P : Type} [AddCommGroup V]
    (g : Geom V P) (pts : List P) (defs : List V) : List (P × P) :=
  List.zipWith (fun ld rd => (g.expAction (-ld.2) ld.1, g.expAction rd.2 rd.1))
    ((pts.drop 2).zip (defs.drop 2)) (pts.zip defs)

/-- Interpolator.interior_deformations from `symmetric.py`: zip the interior
points `points[1:-1]` and interior deformations `deformations[1:-1]` with the
control-point pairs, set `sig_right[i] = redlog(P, action(exp(-d), left))`
and `sig_left[i] = redlog(P, action(exp(d), right))`, and return
`(sig_right - sig_left + 2*interior_deformations)/4`. -/
def interiorDeformations {V P : Type} [AddCommGroup V] [Module ℚ V]
    (g : Geom V P) (pts : List P) (defs : List V) : List V :=
  List.zipWith
    (fun pd lr =>
      ((1:ℚ)/4) • (g.redlog pd.1 (g.expAction (-pd.2) lr.1)
        - g.redlog pd.1 (g.expAction pd.2 lr.2) + (2:ℚ) • pd.2))
    (((pts.drop 1).dropLast).zip ((defs.drop 1).dropLast))
    (controlPoints g pts defs)

/-- One loop body of `compute_deformations` acting on the array: the numpy
slice assignment `deformations[1:-1] = interior` (which keeps the first and
last cell) followed by the boundary overwrite `deformations[0] =
boundary_deformations[0]; deformations[-1] = boundary_deformations[1]`. -/
def iterStep {V P : Type} [AddCommGroup V] [Module ℚ V]
    (g : Geom V P) (pts : List P) (b0 b1 : V) (defs : List V) : List V :=
  let interior := interiorDeformations g pts defs
  let d1 := defs.take 1 ++ interior ++ defs.drop (max (defs.length - 1) 1)
  (d1.set 0 b0).set (d1.length - 1) b1

/-- Failure modes of `Interpolator.compute_deformations`: either numpy's
`np.max` rejects an empty interior (fewer than three interpolation points),
or the `for ... else` clause raises `"No convergence in {i} steps; error :{e}"`.
The inner boundary-overwrite loop `for i,j in ((0,0), (1,-1))` rebinds the
name `i`, so at raise time the Python variable `i` always holds `1`, never
the outer iteration index; the embedded error carries that value faithfully. -/
inductive SolveErr (V : Type) : Type
  | emptyMax
  | noConvergence (i : ℕ) (err : List V)
  deriving DecidableEq

/-- Interpolator.max_iter from `symmetric.py`. -/
def maxIter : ℕ := 500

/-- Interpolator.tolerance from `symmetric.py`. -/
def tolerance : ℚ := 1e-12

/-- The `for i in range(max_iter)` loop of `compute_deformations`.  `vabs` is
the componentwise absolute value through which `np.max(np.abs(error))` is
computed (for scalar deformations `vabs = |.|`); the first list argument is
the number of remaining iterations and the loop is entered with `maxIter`,
so the fuel-0 base case is unreachable.  On convergence the updated array
(with overwritten boundaries) is returned; when the last iteration fails the
test, the raise reports `i = 1` (see `SolveErr`) and the last error array. -/
def solveLoop {V P : Type} [AddCommGroup V] [Module ℚ V]
    (g : Geom V P) (pts : List P) (b0 b1 : V) (vabs : V → ℚ) :
    ℕ → List V → Except (SolveErr V) (List V)
  | 0, _ => .error (.noConvergence 1 [])
  | fuel + 1, defs =>
    let interior := interiorDeformations g pts defs
    let error := List.zipWith (fun a b => a - b) ((defs.drop 1).dropLast) interior
    let newDefs := iterStep g pts b0 b1 defs
    match error.map vabs with
    | [] => .error .emptyMax
    | e :: es =>
      if es.foldl max e < tolerance then .ok newDefs
      else
        match fuel with
        | 0 => .error (.noConvergence 1 error)
        | fuel2 + 1 => solveLoop g pts b0 b1 vabs (fuel2 + 1) newDefs

/-- Interpolator.compute_deformations from `symmetric.py`: start from
`geometry.zero_deformations(interpolation_points)` and run the relaxation
loop at most `max_iter` times. -/
def computeDeformations {V P : Type} [AddCommGroup V] [Module ℚ V] [Inhabited P]
    (g : Geom V P) (pts : List P) (v0 v1 : V) (vabs : V → ℚ) :
    Except (SolveErr V) (List V) :=
  let bd := boundaryDeformations g pts v0 v1
  solveLoop g pts bd.1 bd.2 vabs maxIter (zeroDeformations pts)

/-- The sequence of deformation arrays threaded through the solve:
`defsSeq 0` is the zero-initialized array that the first relaxation update
reads, and `defsSeq (k+1)` is the array after the `(k+1)`-st update (interior
replaced, boundaries overwritten), which the `(k+2)`-nd update reads. -/
def defsSeq {V P : Type} [AddCommGroup V] [Module ℚ V] [Inhabited P]
    (g : Geom V P) (pts : List P) (v0 v1 : V) : ℕ → List V
  | 0 => zeroDeformations pts
  | k + 1 =>
    iterStep g pts (boundaryDeformations g pts v0 v1).1
      (boundaryDeformations g pts v0 v1).2 (defsSeq g pts v0 v1 k)

/-- Modelled from the spec: the Euclidean geometry variant of the missing
`bspline/geometry.py` — "`action(v,P) = P+v`; `redlog(P,Q) = Q-P`" — with
`connection` passing the boundary velocity through unchanged (the `1/3`
cubic scaling is applied by the caller in `Interpolator.__init__`). -/
def euclidGeom : Geom ℚ ℚ where
  expAction := fun v p => p + v
  redlog := fun p q => q - p
  connection := fun _ v => v

/-- A user-supplied pathological geometry (the `Interpolator` constructor
accepts any geometry object): its action overshoots the Euclidean one by a
factor 5, which makes the relaxation diverge.  It exercises the
non-convergence branch of `compute_deformations`. -/
def badGeom : Geom ℚ ℚ where
  expAction := fun v p => p + 5 * v
  redlog := fun p q => q - p
  connection := fun _ v => v

/-! ### C6: the relaxation update rule reads only the previous iteration -/

theorem interiorDeformations_length {V P : Type} [AddCommGroup V] [Module ℚ V]
    (g : Geom V P) (pts : List P) (defs : List V) (hlen : defs.length = pts.length) :
    (interiorDeformations g pts defs).length = pts.length - 2 := by
  unfold interiorDeformations controlPoints
  simp only [List.length_zipWith, List.length_zip, List.length_drop, List.length_dropLast]
  omega

theorem drop_length_sub_one {α : Type} : ∀ {l : List α} (h : l ≠ []),
    l.drop (l.length - 1) = [l.getLast h]
  | [a], _ => by simp
  | a :: b :: t, _ => by
    rw [show (a :: b :: t).length - 1 = ((b :: t).length - 1) + 1 by simp]
    rw [List.drop_succ_cons]
    rw [drop_length_sub_one (by simp : (b :: t) ≠ [])]
    congr 1

theorem iterStep_shape {V P : Type} [AddCommGroup V] [Module ℚ V]
    (g : Geom V P) (pts : List P) (b0 b1 : V) (defs : List V)
    (hlen : defs.length = pts.length) (h2 : 2 ≤ defs.length) :
    iterStep g pts b0 b1 defs = b0 :: (interiorDeformations g pts defs ++ [b1]) := by
  obtain ⟨d0, rest, rfl⟩ : ∃ d0 rest, defs = d0 :: rest := by
    cases defs with
    | nil => simp at h2
    | cons a l => exact ⟨a, l, rfl⟩
  have hne : (d0 :: rest) ≠ [] := by simp
  have hmax : max ((d0 :: rest).length - 1) 1 = (d0 :: rest).length - 1 := by
    simp only [List.length_cons] at h2 ⊢
    omega
  unfold iterStep
  dsimp only
  rw [hmax, drop_length_sub_one hne, show List.take 1 (d0 :: rest) = [d0] from rfl]
  rw [show ([d0] ++ interiorDeformations g pts (d0 :: rest) ++ [(d0 :: rest).getLast hne]) =
      d0 :: (interiorDeformations g pts (d0 :: rest) ++ [(d0 :: rest).getLast hne]) from rfl]
  rw [List.set_cons_zero]
  have hlen3 : (d0 :: (interiorDeformations g pts (d0 :: rest)
      ++ [(d0 :: rest).getLast hne])).length - 1
      = (interiorDeformations g pts (d0 :: rest)).length + 1 := by
    simp
  rw [hlen3]
  rw [show (b0 :: (interiorDeformations g pts (d0 :: rest)
        ++ [(d0 :: rest).getLast hne])).set
        ((interiorDeformations g pts (d0 :: rest)).length + 1) b1 =
      b0 :: ((interiorDeformations g pts (d0 :: rest)
        ++ [(d0 :: rest).getLast hne]).set
        (interiorDeformations g pts (d0 :: rest)).length b1) from rfl]
  congr 1
  rw [List.set_append_right _ _ (le_refl _)]
  simp

theorem interiorDeformations_getElem {V P : Type} [AddCommGroup V] [Module ℚ V]
    (g : Geom V P) (pts : List P) (defs : List V) (i : ℕ)
    (hlen : defs.length = pts.length) (hi : i + 2 < pts.length) :
    (interiorDeformations g pts defs)[i]? =
      some (((1:ℚ)/4) • (g.redlog (pts.get ⟨i+1, by omega⟩)
          (g.expAction (-(defs.get ⟨i+1, by omega⟩))
            (g.expAction (-(defs.get ⟨i+2, by omega⟩)) (pts.get ⟨i+2, by omega⟩)))
        - g.redlog (pts.get ⟨i+1, by omega⟩)
          (g.expAction (defs.get ⟨i+1, by omega⟩)
            (g.expAction (defs.get ⟨i, by omega⟩) (pts.get ⟨i, by omega⟩)))
        + (2:ℚ) • defs.get ⟨i+1, by omega⟩)) := by
  unfold interiorDeformations controlPoints
  rw [List.getElem?_zipWith]
  have h1 : (((pts.drop 1).dropLast).zip ((defs.drop 1).dropLast))[i]? =
      some (pts.get ⟨i+1, by omega⟩, defs.get ⟨i+1, by omega⟩) := by
    rw [List.getElem?_eq_getElem (by
      simp only [List.length_zip, List.length_dropLast, List.length_drop]
      omega)]
    simp [List.getElem_zip, List.getElem_dropLast, List.getElem_drop, List.get_eq_getElem,
          Nat.add_comm]
  have h2 : (List.zipWith (fun ld rd => (g.expAction (-ld.2) ld.1, g.expAction rd.2 rd.1))
      ((pts.drop 2).zip (defs.drop 2)) (pts.zip defs))[i]? =
      some (g.expAction (-(defs.get ⟨i+2, by omega⟩)) (pts.get ⟨i+2, by omega⟩),
            g.expAction (defs.get ⟨i, by omega⟩) (pts.get ⟨i, by omega⟩)) := by
    rw [List.getElem?_zipWith]
    have h21 : ((pts.drop 2).zip (defs.drop 2))[i]? =
        some (pts.get ⟨i+2, by omega⟩, defs.get ⟨i+2, by omega⟩) := by
      rw [List.getElem?_eq_getElem (by
        simp only [List.length_zip, List.length_drop]
        omega)]
      simp [List.getElem_zip, List.getElem_drop, List.get_eq_getElem, Nat.add_comm]
    have h22 : (pts.zip defs)[i]? = some (pts.get ⟨i, by omega⟩, defs.get ⟨i, by omega⟩) := by
      rw [List.getElem?_eq_getElem (by
        simp only [List.length_zip]
        omega)]
      simp only [List.getElem_zip, List.get_eq_getElem]
    rw [h21, h22]
  rw [h1, h2]

/-- C6: in every iteration of the C2 solver the updated array is
`b0 :: interior ++ [b1]` where `interior` is a pure function of the
previous iteration's deformation array `defs` (never of partially updated
values), and the new deformation at interior point `i` (array slot `i+1`)
equals `(sig_right_i - sig_left_i + 2*d_i)/4` with
`sig_right_i = redlog(P_i, action(exp(-d_i), left_i))`,
`left_i  = action(exp(-d_{i+1}), P_{i+1})` the left control point derived
from the right neighbour, and
`sig_left_i  = redlog(P_i, action(exp(d_i), right_i))`,
`right_i = action(exp(d_{i-1}), P_{i-1})` the right control point derived
from the left neighbour — all read from the previous array `defs`. -/
theorem C6_interior_update_rule {V P : Type} [AddCommGroup V] [Module ℚ V]
    (g : Geom V P) (pts : List P) (defs : List V) (b0 b1 : V) (i : ℕ)
    (hlen : defs.length = pts.length) (hi : i + 2 < pts.length) :
    iterStep g pts b0 b1 defs = b0 :: (interiorDeformations g pts defs ++ [b1]) ∧
    (iterStep g pts b0 b1 defs)[i+1]? =
      some (((1:ℚ)/4) • (g.redlog (pts.get ⟨i+1, by omega⟩)
          (g.expAction (-(defs.get ⟨i+1, by omega⟩))
            (g.expAction (-(defs.get ⟨i+2, by omega⟩)) (pts.get ⟨i+2, by omega⟩)))
        - g.redlog (pts.get ⟨i+1, by omega⟩)
          (g.expAction (defs.get ⟨i+1, by omega⟩)
            (g.expAction (defs.get ⟨i, by omega⟩) (pts.get ⟨i, by omega⟩)))
        + (2:ℚ) • defs.get ⟨i+1, by omega⟩)) := by
  have hshape := iterStep_shape g pts b0 b1 defs hlen (by omega)
  refine ⟨hshape, ?_⟩
  rw [hshape, List.getElem?_cons_succ, List.getElem?_append_left
    (by rw [interiorDeformations_length g pts defs hlen]; omega)]
  exact interiorDeformations_getElem g pts defs i hlen hi

/-- C6 witness: the update rule instantiated for the Euclidean geometry on
points `[0,0,1]` with zero deformations: the interior slot of the updated
array holds `(1 - 0 - (0 - 0) + 0)/4 = 1/4`. -/
theorem C6_interior_update_rule_witness :
    iterStep euclidGeom [(0:ℚ),0,1] 7 9 [0,0,0]
      = 7 :: (interiorDeformations euclidGeom [(0:ℚ),0,1] [0,0,0] ++ [9]) ∧
    (iterStep euclidGeom [(0:ℚ),0,1] 7 9 [0,0,0])[1]? = some (1/4) := by
  have h := C6_interior_update_rule euclidGeom [(0:ℚ),0,1] [0,0,0] 7 9 0
    (by norm_num) (by norm_num)
  refine ⟨h.1, ?_⟩
  rw [h.2]
  norm_num [euclidGeom]

/-! ### C4: boundary entries during the solve -/

theorem defsSeq_length {V P : Type} [AddCommGroup V] [Module ℚ V] [Inhabited P]
    (g : Geom V P) (pts : List P) (v0 v1 : V) (h2 : 2 ≤ pts.length) :
    ∀ k, (defsSeq g pts v0 v1 k).length = pts.length
  | 0 => by simp [defsSeq, zeroDeformations]
  | k + 1 => by
    rw [defsSeq, iterStep_shape g pts _ _ _ (defsSeq_length g pts v0 v1 h2 k)
      (by rw [defsSeq_length g pts v0 v1 h2 k]; omega)]
    simp only [List.length_cons, List.length_append, List.length_nil,
      interiorDeformations_length g pts _ (defsSeq_length g pts v0 v1 h2 k)]
    omega

/-- C4 (amended): the interior deformations start at zero, but so do the
boundary entries — `zero_deformations` zero-initializes the whole array and
receives only the interpolation points, so the array read by the FIRST
relaxation update carries zero boundary entries, not the connection-derived
boundary deformations.  Those are written only after each update, so every
array read from the second update onward (k ≥ 1) carries them. -/
theorem C4_amended_boundaries_fixed_after_first_update {V P : Type} [AddCommGroup V] [Module ℚ V] [Inhabited P]
    (g : Geom V P) (pts : List P) (v0 v1 : V) (k : ℕ)
    (h2 : 2 ≤ pts.length) (hk : 1 ≤ k) :
    defsSeq g pts v0 v1 0 = List.replicate pts.length (0 : V) ∧
    (defsSeq g pts v0 v1 k).head? = some (boundaryDeformations g pts v0 v1).1 ∧
    (defsSeq g pts v0 v1 k).getLast? = some (boundaryDeformations g pts v0 v1).2 := by
  refine ⟨rfl, ?_⟩
  obtain ⟨m, rfl⟩ : ∃ m, k = m + 1 := ⟨k - 1, by omega⟩
  rw [defsSeq, iterStep_shape g pts _ _ _ (defsSeq_length g pts v0 v1 h2 m)
    (by rw [defsSeq_length g pts v0 v1 h2 m]; omega)]
  constructor
  · simp
  · rw [show (boundaryDeformations g pts v0 v1).1 ::
        (interiorDeformations g pts (defsSeq g pts v0 v1 m) ++
          [(boundaryDeformations g pts v0 v1).2]) =
      ((boundaryDeformations g pts v0 v1).1 ::
        interiorDeformations g pts (defsSeq g pts v0 v1 m)) ++
          [(boundaryDeformations g pts v0 v1).2] from by simp]
    rw [List.getLast?_concat]

/-- C4 counterexample: for the Euclidean geometry on interpolation points
`[0,0,0]` with boundary velocities `3`, the boundary deformation is
`1/3 * connection(P, 3) = 1`, yet the array read by the first relaxation
update (`defsSeq 0`, i.e. `zero_deformations(points)`) is `[0,0,0]` with
boundary entries `0 ≠ 1` — and the difference is material: the first update
computes `[0]`, while an array with the claimed boundary values `[1,0,1]`
would produce `[-1/2]`. -/
theorem C4_counterexample_first_update_reads_zero_boundaries :
    (boundaryDeformations euclidGeom [(0:ℚ),0,0] 3 3).1 = 1 ∧
    defsSeq euclidGeom [(0:ℚ),0,0] 3 3 0 = [0, 0, 0] ∧
    interiorDeformations euclidGeom [(0:ℚ),0,0] (defsSeq euclidGeom [(0:ℚ),0,0] 3 3 0) = [0] ∧
    interiorDeformations euclidGeom [(0:ℚ),0,0] [1, 0, 1] = [-(1/2)] := by
  refine ⟨?_, ?_, ?_, ?_⟩
  · norm_num [boundaryDeformations, euclidGeom]
  · norm_num [defsSeq, zeroDeformations, List.replicate]
  · norm_num [defsSeq, zeroDeformations, List.replicate, interiorDeformations,
      controlPoints, euclidGeom]
  · norm_num [interiorDeformations, controlPoints, euclidGeom]

/-- C4 witness: the amended statement at `k = 1` for the Euclidean instance:
after the first update both boundary entries hold the derived value `1`. -/
theorem C4_amended_boundaries_fixed_after_first_update_witness :
    defsSeq euclidGeom [(0:ℚ),0,0] 3 3 0
      = List.replicate ([(0:ℚ),0,0] : List ℚ).length (0 : ℚ) ∧
    (defsSeq euclidGeom [(0:ℚ),0,0] 3 3 1).head?
      = some (boundaryDeformations euclidGeom [(0:ℚ),0,0] 3 3).1 ∧
    (defsSeq euclidGeom [(0:ℚ),0,0] 3 3 1).getLast?
      = some (boundaryDeformations euclidGeom [(0:ℚ),0,0] 3 3).2 :=
  C4_amended_boundaries_fixed_after_first_update euclidGeom [(0:ℚ),0,0] 3 3 1
    (by norm_num) (by norm_num)

/-! ### C7: non-convergence reporting (shadowed iteration index) -/

/-- The scalar relaxation map induced by `badGeom` on the single interior
deformation of the points `[0,0,1]` with zero boundary deformations:
`d ↦ (1 - 8d)/4`, an expansive map (slope `-2`) with no attracting fixed
point, so the solve cannot converge. -/
def badStep (d : ℚ) : ℚ := (1 - 8*d)/4

theorem bad_interior (d : ℚ) :
    interiorDeformations badGeom [0,0,1] [0,d,0] = [(1 - 8*d)/4] := by
  simp [interiorDeformations, controlPoints, badGeom]
  ring

theorem bad_iterStep (d : ℚ) :
    iterStep badGeom [0,0,1] 0 0 [0,d,0] = [0, badStep d, 0] := by
  unfold iterStep badStep
  dsimp only
  rw [bad_interior]
  rfl

theorem bad_loop : ∀ (n : ℕ) (d : ℚ), 1/4 ≤ |3*d - 1/4| →
    solveLoop badGeom [0,0,1] 0 0 (fun x => |x|) (n+1) [0,d,0] =
      .error (.noConvergence 1 [3 * (badStep^[n] d) - 1/4]) := by
  intro n
  induction n with
  | zero =>
    intro d hd
    rw [solveLoop]
    rw [bad_interior]
    have herr : List.zipWith (fun a b => a - b) (([0,d,0].drop 1).dropLast) [(1 - 8*d)/4]
        = [3*d - 1/4] := by
      simp
      ring
    rw [herr]
    simp only [List.map, List.foldl]
    rw [if_neg (by
      unfold tolerance
      intro hcon
      rw [abs_lt] at hcon
      rw [le_abs] at hd
      rcases hd with h | h <;> [linarith [hcon.2]; linarith [hcon.1]])]
    simp
  | succ m ih =>
    intro d hd
    rw [solveLoop]
    rw [bad_interior]
    have herr : List.zipWith (fun a b => a - b) (([0,d,0].drop 1).dropLast) [(1 - 8*d)/4]
        = [3*d - 1/4] := by
      simp
      ring
    rw [herr]
    simp only [List.map, List.foldl]
    rw [if_neg (by
      unfold tolerance
      intro hcon
      rw [abs_lt] at hcon
      rw [le_abs] at hd
      rcases hd with h | h <;> [linarith [hcon.2]; linarith [hcon.1]])]
    rw [bad_iterStep]
    rw [ih (badStep d) (by
      have : 3 * badStep d - 1/4 = -2 * (3*d - 1/4) := by
        unfold badStep
        ring
      rw [this, abs_mul]
      rw [show |(-2 : ℚ)| = 2 by norm_num]
      nlinarith [abs_nonneg (3*d - 1/4)])]
    rw [← Function.iterate_succ_apply]

theorem badStep_iterate_zero : ∀ n : ℕ, badStep^[n] 0 = 1/12 - (-2)^n/12
  | 0 => by norm_num
  | n + 1 => by
    rw [Function.iterate_succ_apply', badStep_iterate_zero n]
    unfold badStep
    rw [pow_succ]
    ring

/-- C7: the solver's constants are `max_iter = 500` and `tolerance = 1e-12`,
and on a non-converging instance `compute_deformations` raises instead of
returning — but the raised error reports the constant `1` as the iteration
count, not the 500 iterations actually performed: the inner
boundary-overwrite loop `for i,j in ((0,0), (1,-1))` shadows the outer
iteration variable `i`, so `"No convergence in {} steps".format(i)` always
formats `i = 1`.  Evaluated here on the divergent instance: the loop runs the
full 500 iterations (fuel `499 + 1`), the residual error after the last
iteration is `2^497`, and the error value carries the shadowed `1`. -/
theorem C7_code_bug_shadowed_iteration_index :
    maxIter = 500 ∧ tolerance = 1e-12 ∧
    computeDeformations badGeom [(0:ℚ),0,1] 0 0 (fun x => |x|) =
      .error (.noConvergence 1 [2^497]) := by
  refine ⟨rfl, rfl, ?_⟩
  unfold computeDeformations
  have hbd : boundaryDeformations badGeom [(0:ℚ),0,1] 0 0 = (0, 0) := by
    norm_num [boundaryDeformations, badGeom]
  rw [hbd]
  have hzero : (zeroDeformations [(0:ℚ),0,1] : List ℚ) = [0,0,0] := rfl
  rw [hzero]
  rw [show maxIter = 499 + 1 from rfl]
  rw [bad_loop 499 0 (by
    rw [show (3*(0:ℚ) - 1/4) = -(1/4) by norm_num, abs_neg,
        abs_of_nonneg (by norm_num : (0:ℚ) ≤ 1/4)])]
  have hval : 3 * (badStep^[499] (0:ℚ)) - 1/4 = (2:ℚ)^497 := by
    rw [badStep_iterate_zero 499]
    have h2 : ((-2 : ℚ))^499 = -(2^499) := by
      rw [neg_pow]
      norm_num
    rw [h2]
    have h3 : (2:ℚ)^499 = 4 * 2^497 := by
      rw [show (499 : ℕ) = 497 + 2 from rfl, pow_add]
      ring
    rw [h3]
    ring
  rw [hval]
